import Mathlib

/-!
Verification of the data-to-likelihood pipeline of Kalkayotl
(`kalkayotl/inference.py`, class `Inference`).

Shallow embedding conventions:
* Floating point values are modelled as rationals (`ℚ`); a value that can be
  NaN (a missing catalog entry, or the result of arithmetic on NaN) is
  modelled as `Option ℚ` with `none` playing the role of NaN.  The helper
  operations `oadd`, `omul`, `oaddF` propagate `none` exactly as IEEE
  arithmetic propagates NaN through `+` and `*`.
* External library calls that are not code of this repository
  (numpy, scipy, pandas, pymc3, arviz) are either modelled by executable
  functions that implement their documented result (`npMin`, `npArgmin`,
  `npArgmax`, `stMode`) or passed in as parameters (the spatial covariance
  matrices returned by `CovarianceParallax` / `CovariancePM`, the Cholesky
  success test of `np.linalg.cholesky`, the per-draw log densities returned
  by `scipy.stats.multivariate_normal(...).logpdf`).
* The flat joint index `i*D + d` used by the source is represented by the
  pair `(i, d) : ℕ × Fin D` (star index, coordinate index); the source
  block `range(i*D, i*D + D)` is exactly the set of pairs with first
  component `i`.
-/

namespace Kalkayotl

/-- NaN-propagating addition on modelled floats (`none` = NaN). -/
def oadd : Option ℚ → Option ℚ → Option ℚ
  | some a, some b => some (a + b)
  | _, _ => none

/-- NaN-propagating multiplication on modelled floats (`none` = NaN). -/
def omul : Option ℚ → Option ℚ → Option ℚ
  | some a, some b => some (a * b)
  | _, _ => none

/-- Add a finite float to a possibly-NaN float (NaN absorbs). -/
def oaddF (o : Option ℚ) (c : ℚ) : Option ℚ :=
  o.map (fun a => a + c)

/-- Model of `np.min` on a one-dimensional array (the source only applies it
to non-empty histories; the empty case returns 0). -/
def npMin : List ℚ → ℚ
  | [] => 0
  | x :: xs => xs.foldl min x

/-- Model of `np.argmin`: index of the first occurrence of the minimum. -/
def npArgmin (l : List ℚ) : ℕ :=
  l.findIdx (fun x => decide (x ≤ npMin l))

/-- Model of `np.max` on a one-dimensional array. -/
def npMax : List ℚ → ℚ
  | [] => 0
  | x :: xs => xs.foldl max x

/-- Model of `np.argmax`: index of the first occurrence of the maximum. -/
def npArgmax (l : List ℚ) : ℕ :=
  l.findIdx (fun x => decide (npMax l ≤ x))

/-!
### Inference.run, optimization warm start (inference.py lines 396-444)

`pm.fit` is the external ADVI service: trial `i` returns an approximation
object whose `hist` is the recorded loss history of that trial.  The source
stores `np.min(approx.hist)` for each trial in `min_trials` and selects
`trials[np.argmin(min_trials)]` as the warm start.
-/

/-- Result object of one `pm.fit` ADVI trial; `hist` is the loss history
(`approx.hist`). -/
structure Approx where
  hist : List ℚ

instance : Inhabited Approx := ⟨⟨[]⟩⟩

/-- The loss recorded at the last iteration of a trial (its final loss). -/
def lastLoss (a : Approx) : ℚ :=
  a.hist.getLast?.getD 0

/-- The list `trials` built by the loop `for i in range(opt_args["trials"])`:
the i-th entry is the result of the i-th independent `pm.fit` call. -/
def optimizeTrials (n : ℕ) (fit : ℕ → Approx) : List Approx :=
  (List.range n).map fit

/-- The list `min_trials`: per trial, `np.min(approx.hist)`. -/
def minTrials (n : ℕ) (fit : ℕ → Approx) : List ℚ :=
  (optimizeTrials n fit).map (fun a => npMin a.hist)

/-- The index `np.argmin(min_trials)` of the selected trial. -/
def bestTrialIdx (n : ℕ) (fit : ℕ → Approx) : ℕ :=
  npArgmin (minTrials n fit)

/-- `best = trials[np.argmin(min_trials)]`, the trial used as warm start. -/
def bestTrial (n : ℕ) (fit : ℕ → Approx) : Approx :=
  (optimizeTrials n fit).getD (bestTrialIdx n fit) default

/-- Concrete two-trial scenario: trial 0 dips to loss 1 mid-history but ends
at 5; trial 1 ends at its minimum 3. -/
def fitCex : ℕ → Approx :=
  fun i => if i = 0 then ⟨[5, 1, 5]⟩ else ⟨[3, 3, 3]⟩

/-!
### Inference._classify (inference.py lines 671-709) and the sample-size rule
of Inference.save_statistics (lines 1071-1078)

The per-star, per-draw, per-component log densities computed by
`scipy.stats.multivariate_normal(mean=loc, cov=cov).logpdf(dt)` are external;
they enter as the parameter `loglk : star → draw → component → ℚ`.
`log_lk.argmax(axis=2)` is `npArgmax` over the component axis and
`scipy.stats.mode` over the draw axis is `stMode` (most frequent value,
ties resolved to the smallest value, as scipy documents).
-/

/-- Model of `scipy.stats.mode` on a vector of integer votes: the most
frequent value; among equally frequent values the smallest is returned. -/
def stMode (l : List ℕ) : ℕ :=
  l.foldl
    (fun b v =>
      if l.count v > l.count b ∨ (l.count v = l.count b ∧ v < b) then v else b)
    (l.headD 0)

/-- The vote of star `i` at draw `j`: the component index maximizing the
log density (`log_lk.argmax(axis=2)`). -/
def classifyVote (loglk : ℕ → ℕ → ℕ → ℚ) (nComp : ℕ) (i j : ℕ) : ℕ :=
  npArgmax ((List.range nComp).map (loglk i j))

/-- The votes of star `i` over the sampled draws. -/
def sourceVotes (loglk : ℕ → ℕ → ℕ → ℚ) (nDraws nComp : ℕ) (i : ℕ) : List ℕ :=
  (List.range nDraws).map (classifyVote loglk nComp i)

/-- Model of `Inference._classify`: the per-star group labels `grps`.
Only for `prior in ["GMM","CGMM"]` does the source compute the vote/mode
labels; every other prior (including "GUM") takes the
`np.zeros(len(self.ID))` branch. -/
def classify (prior : String) (nSources : ℕ) (loglk : ℕ → ℕ → ℕ → ℚ)
    (nDraws nComp : ℕ) : List ℕ :=
  if prior = "GMM" ∨ prior = "CGMM" then
    (List.range nSources).map (fun i => stMode (sourceVotes loglk nDraws nComp i))
  else
    List.replicate nSources 0

/-- The draw-sample size chosen by `Inference.save_statistics` before calling
`_classify` (inference.py lines 1071-1078). -/
def classifyNSamples (nDraws : ℕ) : ℕ :=
  if nDraws > 100 then 100 else nDraws

/-- Concrete log-density table: component `k` always has log density `k`,
so component 1 wins every vote when two components are present. -/
def loglkCex : ℕ → ℕ → ℕ → ℚ :=
  fun _ _ k => (k : ℚ)

/-!
### Inference.setup validation chain (inference.py lines 267-318)

Only the assert chain is modelled; the construction of `Model1D/3D/6D` that
follows it is external to this file.  A `None` entry of the parameter or
hyper-parameter dictionaries is `none`.
-/

/-- The prior-parameter dictionary entries read by `Inference.setup`. -/
structure Params where
  location : Option (List ℚ)
  scale : Option (List ℚ)
  weights : Option (List ℚ)
  rt : Option ℚ
  gamma : Option ℚ

/-- The hyper-parameter dictionary entries read by `Inference.setup`. -/
structure Hyper where
  alpha : Option (List ℚ)
  beta : Option (List ℚ)
  gamma : Option (List ℚ)
  delta : Option (List ℚ)

/-- The King and EFF shape-parameter asserts at the end of the chain. -/
def tailChecks (prior : String) (p : Params) (h : Hyper) : Except String Unit :=
  if prior = "King" ∧ p.rt = none ∧ h.gamma = none then
    .error "hyper_gamma must be specified."
  else if prior = "EFF" ∧ p.gamma = none ∧ h.gamma = none then
    .error "hyper_gamma must be specified."
  else .ok ()

/-- The asserts that follow the weight check inside the mixture branch. -/
def mixtureTail (D : ℕ) (prior parametrization : String) (p : Params)
    (h : Hyper) : Except String Unit :=
  if ¬ parametrization = "central" then
    .error "Only the central parametrization is valid for this configuration."
  else if (prior = "CGMM" ∨ prior = "GUM") ∧ ¬ (D = 3 ∨ D = 6) then
    .error "This prior is not valid for 1D version."
  else tailChecks prior p h

/-- The weight check of the mixture branch (inference.py lines 300-304). -/
def mixtureChecks (D : ℕ) (prior parametrization : String) (p : Params)
    (h : Hyper) : Except String Unit :=
  match p.weights with
  | none =>
      if h.delta = none then .error "hyper_delta must be specified."
      else mixtureTail D prior parametrization p h
  | some w =>
      if ¬ npMin w > 0.05 then .error "weights must be greater than 5%."
      else mixtureTail D prior parametrization p h

/-- Model of the assert chain of `Inference.setup`: the first failing assert
terminates the process with its message (`Except.error`); `.ok ()` means the
chain passed and model construction is reached. -/
def setupChecks (D : ℕ) (prior transformation parametrization : String)
    (p : Params) (h : Hyper) : Except String Unit :=
  if ¬ (transformation = "pc" ∨ transformation = "mas") then
    .error "Transformation must be either pc or mas."
  else if (D = 3 ∨ D = 6) ∧ ¬ transformation = "pc" then
    .error "3D model only works in pc."
  else if p.location = none ∧ h.alpha = none then
    .error "hyper_alpha must be specified."
  else if p.scale = none ∧ h.beta = none then
    .error "hyper_beta must be specified."
  else if prior = "EDSD" ∧ ¬ D = 1 then
    .error "EDSD prior is only valid for 1D version."
  else if prior = "Uniform" ∧ ¬ D = 1 then
    .error "Uniform prior is only valid for 1D version."
  else if prior = "GMM" ∨ prior = "CGMM" ∨ prior = "GUM" then
    mixtureChecks D prior parametrization p h
  else tailChecks prior p h

/-!
### Inference.load_trace group loading (inference.py lines 486-510)

The exception type matters here: `az.from_netcdf(file).posterior` on an
arviz `InferenceData` without a posterior group is a plain attribute
lookup, which raises `AttributeError`, not `ValueError`; the source wraps
it in `try: ... except ValueError: sys.exit(...)`, so only a `ValueError`
would reach the `sys.exit` handler, while the `AttributeError` propagates
uncaught.  The prior group is read under a bare `except:`, which catches
every exception.
-/

/-- The Python exception kinds relevant to the `load_trace` group reads. -/
inductive PyExc where
  | valueError (msg : String)
  | attributeError (msg : String)

/-- The persisted arviz dataset: optional posterior and prior groups, each
carrying its data-variable names. -/
structure AzData where
  posterior : Option (List String)
  prior : Option (List String)

/-- Model of `az.from_netcdf(file_chains).posterior`: accessing a missing
group on an arviz `InferenceData` raises `AttributeError` naming the
attribute (it is ordinary attribute lookup, external arviz behavior). -/
def fromNetcdfPosterior (ds : AzData) : Except PyExc (List String) :=
  match ds.posterior with
  | some post => .ok post
  | none => .error (.attributeError "posterior")

/-- How one call of `Inference.load_trace` can end: proceed with the loaded
groups, terminate via `sys.exit` with a message, or die on an exception no
handler caught. -/
inductive LoadTraceOutcome where
  | ok (post : List String) (prior : Option (List String))
  | fatalExit (msg : String)
  | uncaught (e : PyExc)

/-- Model of the group-loading prefix of `Inference.load_trace`: the
posterior read is guarded by `except ValueError`, whose handler is
`sys.exit` naming the file; any other exception propagates uncaught.  The
prior read is guarded by a bare `except:`, so a missing prior group becomes
`None` and the load continues. -/
def loadTraceGroups (file : String) (ds : AzData) : LoadTraceOutcome :=
  match fromNetcdfPosterior ds with
  | .ok post => .ok post ds.prior
  | .error e =>
      match e with
      | .valueError _ => .fatalExit ("There is no posterior group in " ++ file)
      | .attributeError m => .uncaught (.attributeError m)

/-!
### Inference.evidence attribute accesses (inference.py lines 1159-1182)

A Python instance is modelled by the list of attribute names its methods
have assigned.  The lists below enumerate every `self.<name> = ...`
assignment in inference.py.
-/

/-- Attributes assigned by `Inference.__init__` (lines 74-131). -/
def initAttrs : List String :=
  ["suffixes", "D", "prior", "zero_point", "parameters", "hyper", "dir_out",
   "transformation", "indep_measures", "parametrization", "reference_system",
   "file_ids", "idx_pma", "idx_pmd", "idx_plx", "names_obs", "names_mu",
   "names_sd", "names_corr", "names_nan", "id_name", "list_observables"]

/-- Attributes assigned by `Inference.load_data` (lines 165-261). -/
def loadDataAttrs : List String :=
  ["ID", "n_sources", "idx_data", "mu_data", "sg_data", "tau_data"]

/-- Attributes assigned by the remaining operations: `setup` (Model),
`load_trace` (ID, datasets and variable lists) and `_classify` (df_groups). -/
def otherAttrs : List String :=
  ["Model", "ID", "ds_posterior", "ds_prior", "source_variables",
   "cluster_variables", "plots_variables", "stats_variables", "loc_variables",
   "std_variables", "cor_variables", "df_groups"]

/-- Every attribute any operation of the class ever assigns. -/
def assignedAttrs : List String :=
  initAttrs ++ loadDataAttrs ++ otherAttrs

/-- The attributes read, in evaluation order, by the argument list of the
`Evidence1D(...)` call inside `Inference.evidence` (lines 1172-1182). -/
def evidenceReads : List String :=
  ["mu_data", "sg_data", "prior", "parameters", "hyper_alpha", "hyper_beta",
   "hyper_gamma", "hyper_delta", "transformation"]

/-- Model of `Inference.evidence` up to the delegation to `Evidence1D`:
the dimension assert runs first, then the attribute reads of the argument
list; the first read of an attribute the instance does not carry raises
`AttributeError`; `.ok ()` means `Evidence1D` is reached. -/
def evidenceCall (D : ℕ) (attrs : List String) : Except String Unit :=
  if ¬ D = 1 then .error "Evidence is only implemented for dimension 1."
  else
    match evidenceReads.find? (fun a => ! attrs.contains a) with
    | some missing => .error ("AttributeError: " ++ missing)
    | none => .ok ()

/-!
### Inference.__init__ index layout and Inference.load_data
(inference.py lines 49-264)

The per-star raw record carries the columns of `self.list_observables` for
the configured dimension: `ra`/`dec` (as separate position columns, needed
by the D=1 missing-value filter; for D=3 and D=6 the same two catalog
columns are the first two entries of `mu`), the D observed quantities `mu`,
their uncertainties `sd`, and the correlation coefficients `corr` in the
order of `self.names_corr`.  A missing catalog cell is `none`.

`CovarianceParallax` / `CovariancePM` live in `kalkayotl/Functions.py`
(external to this file); the matrices they return enter `load_data` as the
parameters `cov_plx` and `cov_pms`, indexed by (filtered) star index, and
`np.linalg.cholesky` success enters as the test `cholOk`.  The final
`np.linalg.inv` of the restricted covariance is likewise external (numpy);
the result carries the restricted mean and the restricted index list from
which both the restricted covariance and its inverse are formed.
-/

/-- self.idx_plx: 2, overwritten with 0 for the 1D configuration. -/
def idx_plx (D : ℕ) : ℕ :=
  if D = 1 then 0 else 2

/-- self.idx_pma. -/
def idx_pma : ℕ := 3

/-- self.idx_pmd. -/
def idx_pmd : ℕ := 4

/-- One catalog row, restricted to the columns `load_data` reads. -/
structure RawStar (D : ℕ) where
  id : String
  ra : Option ℚ
  dec : Option ℚ
  mu : Fin D → Option ℚ
  sd : Fin D → Option ℚ
  corr : List (Option ℚ)

/-- The `data.dropna(subset=self.names_nan, thresh=len(self.names_nan))`
filter: a row survives iff every column of `names_nan` is present.  For
D=6 the radial velocity and its uncertainty (indices 5 of `mu` and `sd`)
are removed from `names_nan` and may be missing. -/
def retained {D : ℕ} (s : RawStar D) : Bool :=
  (if D = 1 then s.ra.isSome && s.dec.isSome else true)
    && (List.finRange D).all (fun d =>
        if D = 6 ∧ d.val = 5 then true else (s.mu d).isSome && (s.sd d).isSome)
    && s.corr.all Option.isSome

/-- The surviving rows, in their original catalog order. -/
def filteredStars (D : ℕ) (raw : List (RawStar D)) : List (RawStar D) :=
  raw.filter (fun s => retained s)

/-- `np.triu_indices(D, k=1)` as a list of index pairs, row-major. -/
def triuPairs (D : ℕ) : List (Fin D × Fin D) :=
  (List.finRange D).flatMap (fun i =>
    ((List.finRange D).filter (fun j => decide (i < j))).map (fun j => (i, j)))

/-- `idx_tru`: the strict upper-triangle positions; for D=6 the positions in
the radial-velocity column (second index 5) are removed, since the catalog
stores no correlation with radial velocity. -/
def idxTru (D : ℕ) : List (Fin D × Fin D) :=
  if D = 6 then (triuPairs D).filter (fun pr => decide (¬ pr.2.val = 5))
  else triuPairs D

/-- The assignment `rho[idx_tru] = corr`: the upper-triangle array before
symmetrization; positions not assigned hold the `np.zeros` value 0. -/
def upOf (D : ℕ) (corr : List (Option ℚ)) (a b : Fin D) : Option ℚ :=
  match ((idxTru D).zip corr).find? (fun pv => decide (pv.1 = (a, b))) with
  | some pv => pv.2
  | none => some 0

/-- `rho = rho + rho.T + np.eye(D)`: the per-star correlation matrix. -/
def rhoOf (D : ℕ) (corr : List (Option ℚ)) (i j : Fin D) : Option ℚ :=
  oadd (oadd (upOf D corr i j) (upOf D corr j i)) (some (if i = j then 1 else 0))

/-- `sigma = np.diag(sd).dot(rho.dot(np.diag(sd)))`: entry (d,e) of the
per-star covariance block, with NaN propagating exactly as in the numpy
product (the entry is NaN iff `sd d`, `sd e` or the correlation entry is). -/
def sigmaOf {D : ℕ} (sd : Fin D → Option ℚ) (rho : Fin D → Fin D → Option ℚ)
    (d e : Fin D) : Option ℚ :=
  omul (sd d) (omul (rho d e) (sd e))

/-- The joint mean vector `mu_data`: entry `i*D + d` is the measurement of
star `i` in coordinate `d` minus the zero point (NaN propagates). -/
def jointMu (D : ℕ) (zero_point : Fin D → ℚ) (stars : List (RawStar D))
    (i : ℕ) (d : Fin D) : Option ℚ :=
  match stars[i]? with
  | some s => (s.mu d).map (fun x => x - zero_point d)
  | none => none

/-- The block-diagonal joint covariance `sg_data` before cross-star terms:
the (i,i) block is the per-star `sigma`, all other entries stay at the
`np.zeros` value 0. -/
def sgBlock (D : ℕ) (stars : List (RawStar D)) (p q : ℕ × Fin D) : Option ℚ :=
  if p.1 = q.1 then
    match stars[p.1]? with
    | some s => sigmaOf s.sd (rhoOf D s.corr) p.2 q.2
    | none => some 0
  else some 0

/-- `sg_data[np.ix_(ida, ida)] += cov` for `ida = [i*D + q for i]`: adds the
cross-star covariance of one observed quantity at its coordinate `q`. -/
def addQuantityCov (D : ℕ) (q : ℕ) (cov : ℕ → ℕ → ℚ)
    (M : ℕ × Fin D → ℕ × Fin D → Option ℚ) :
    ℕ × Fin D → ℕ × Fin D → Option ℚ :=
  fun p r =>
    if p.2.val = q ∧ r.2.val = q then oaddF (M p r) (cov p.1 r.1) else M p r

/-- The flat joint index set `range(N*D)` as (star, coordinate) pairs, in
flat order. -/
def pairIdx (D N : ℕ) : List (ℕ × Fin D) :=
  (List.range N).flatMap (fun i => (List.finRange D).map (fun d => (i, d)))

/-- The outputs of `load_data`: identifier list, star count, joint mean and
covariance, the observed (finite) index subset `idx_data`, the restricted
mean `mu_data`, and the persisted Identifiers.csv rows (header then ids). -/
structure LoadResult (D : ℕ) where
  ID : List String
  n_sources : ℕ
  muJoint : ℕ → Fin D → Option ℚ
  sgJoint : ℕ × Fin D → ℕ × Fin D → Option ℚ
  obsIdx : List (ℕ × Fin D)
  mu_data : List ℚ
  fileIds : List String

instance (D : ℕ) : Inhabited (LoadResult D) :=
  ⟨⟨[], 0, fun _ _ => none, fun _ _ => none, [], [], []⟩⟩

/-- Packaging of the `load_data` outputs: the observed index subset is
`np.where(np.isfinite(mu_data))[0]` and the restricted mean is
`mu_data[idx_obs]`; the restricted covariance and its inverse `tau_data`
are formed from the same index subset by external numpy calls. -/
def mkLoadResult (D : ℕ) (id_name : String) (zero_point : Fin D → ℚ)
    (stars : List (RawStar D))
    (sg : ℕ × Fin D → ℕ × Fin D → Option ℚ) : LoadResult D :=
  { ID := stars.map RawStar.id
    n_sources := stars.length
    muJoint := jointMu D zero_point stars
    sgJoint := sg
    obsIdx := (pairIdx D stars.length).filter
      (fun p => (jointMu D zero_point stars p.1 p.2).isSome)
    mu_data := ((pairIdx D stars.length).filter
      (fun p => (jointMu D zero_point stars p.1 p.2).isSome)).map
      (fun p => (jointMu D zero_point stars p.1 p.2).getD 0)
    fileIds := id_name :: stars.map RawStar.id }

/-- Model of `Inference.load_data`: filter rows, build the block joint
covariance, persist identifiers, add the cross-star parallax covariance
(and for D=6 the proper-motion covariances) unless `indep_measures`,
failing fatally when a Cholesky positive-definiteness test fails, and
restrict to the observed coordinates. -/
def load_data (D : ℕ) (id_name : String) (zero_point : Fin D → ℚ)
    (raw : List (RawStar D)) (indep_measures : Bool)
    (cov_plx cov_pms : ℕ → ℕ → ℚ) (cholOk : (ℕ → ℕ → ℚ) → Bool) :
    Except String (LoadResult D) :=
  let stars := filteredStars D raw
  let base := sgBlock D stars
  if indep_measures then
    .ok (mkLoadResult D id_name zero_point stars base)
  else if cholOk cov_plx = false then
    .error "Covariance matrix of parallax correlations is not positive definite!"
  else if D = 6 then
    if cholOk cov_pms = false then
      .error "Covariance matrix of proper motions correlations is not positive definite!"
    else
      .ok (mkLoadResult D id_name zero_point stars
        (addQuantityCov D idx_pmd cov_pms (addQuantityCov D idx_pma cov_pms
          (addQuantityCov D (idx_plx D) cov_plx base))))
  else
    .ok (mkLoadResult D id_name zero_point stars
      (addQuantityCov D (idx_plx D) cov_plx base))

/-- Model of the identifier read-back of `Inference.load_trace`
(`pn.read_csv(self.file_ids).to_numpy().flatten()`): the first CSV row is
the header, the remaining rows are the identifiers in order. -/
def readIdsCsv (rows : List String) : List String :=
  rows.drop 1

/-- Concrete zero point for the 6D examples. -/
def exZp6 : Fin 6 → ℚ := fun _ => 0

/-- Concrete 6D catalog row whose only missing cells are the radial
velocity and its uncertainty. -/
def exStarRV : RawStar 6 :=
  { id := "4472832130942575872"
    ra := some 289
    dec := some 45
    mu := fun d => if d.val = 5 then none else some ((d.val : ℚ) + 1)
    sd := fun d => if d.val = 5 then none else some 1
    corr := List.replicate 10 (some 0) }

/-- Concrete one-row 6D catalog. -/
def exRaw6 : List (RawStar 6) := [exStarRV]

/-- Concrete cross-star covariance matrix (constant 1). -/
def exCovOne : ℕ → ℕ → ℚ := fun _ _ => 1

/-- Cholesky test that always succeeds. -/
def exCholTrue : (ℕ → ℕ → ℚ) → Bool := fun _ => true

/-- The load result of the concrete 6D catalog with independent measures. -/
def exRes6 : LoadResult 6 :=
  match load_data 6 "source_id" exZp6 exRaw6 true exCovOne exCovOne exCholTrue with
  | .ok r => r
  | .error _ => default

/-- The load result of the concrete 6D catalog with cross-star terms. -/
def exRes6c : LoadResult 6 :=
  match load_data 6 "source_id" exZp6 exRaw6 false exCovOne exCovOne exCholTrue with
  | .ok r => r
  | .error _ => default

end Kalkayotl

namespace Kalkayotl

lemma foldl_min_le_init (l : List ℚ) (a : ℚ) : l.foldl min a ≤ a := by
  induction l generalizing a with
  | nil => exact le_refl a
  | cons x xs ih => exact le_trans (ih (min a x)) (min_le_left a x)

lemma foldl_min_le_mem (l : List ℚ) (a x : ℚ) (hx : x ∈ l) : l.foldl min a ≤ x := by
  induction l generalizing a with
  | nil => cases hx
  | cons y ys ih =>
      rcases List.mem_cons.mp hx with h | h
      · subst h
        exact le_trans (foldl_min_le_init ys (min a x)) (min_le_right a x)
      · exact ih (min a y) h

lemma npMin_le (l : List ℚ) (x : ℚ) (hx : x ∈ l) : npMin l ≤ x := by
  cases l with
  | nil => cases hx
  | cons y ys =>
      rcases List.mem_cons.mp hx with h | h
      · subst h
        exact foldl_min_le_init ys x
      · exact foldl_min_le_mem ys y x h

lemma foldl_min_mem (l : List ℚ) (a : ℚ) : l.foldl min a = a ∨ l.foldl min a ∈ l := by
  induction l generalizing a with
  | nil => exact Or.inl rfl
  | cons x xs ih =>
      rcases ih (min a x) with h | h
      · rcases min_choice a x with hm | hm
        · exact Or.inl (by simp only [List.foldl_cons]; rw [h, hm])
        · refine Or.inr ?_
          simp only [List.foldl_cons]
          rw [h, hm]
          exact List.mem_cons_self x xs
      · exact Or.inr (List.mem_cons_of_mem x h)

lemma npMin_mem (l : List ℚ) (hl : l ≠ []) : npMin l ∈ l := by
  cases l with
  | nil => exact absurd rfl hl
  | cons y ys =>
      rcases foldl_min_mem ys y with h | h
      · rw [npMin, h]; exact List.mem_cons_self y ys
      · exact List.mem_cons_of_mem y h

lemma npArgmin_lt_length (l : List ℚ) (hl : l ≠ []) : npArgmin l < l.length := by
  apply List.findIdx_lt_length_of_exists
  exact ⟨npMin l, npMin_mem l hl, by simp⟩

lemma npArgmin_le (l : List ℚ) (hl : l ≠ []) (x : ℚ) (hx : x ∈ l) :
    l.getD (npArgmin l) 0 ≤ x := by
  have hlt : npArgmin l < l.length := npArgmin_lt_length l hl
  have h1 : decide (l[npArgmin l] ≤ npMin l) = true :=
    List.findIdx_getElem (w := hlt)
  have h2 : l[npArgmin l] ≤ npMin l := of_decide_eq_true h1
  rw [List.getD_eq_getElem l 0 hlt]
  exact le_trans h2 (npMin_le l x hx)

lemma minTrials_length (n : ℕ) (fit : ℕ → Approx) : (minTrials n fit).length = n := by
  simp [minTrials, optimizeTrials]

lemma optimizeTrials_getElem (n : ℕ) (fit : ℕ → Approx) (i : ℕ) (hi : i < n) :
    (optimizeTrials n fit)[i]? = some (fit i) := by
  simp [optimizeTrials, List.getElem?_map, List.getElem?_range hi]

/-- C1 (amended): with `optimize=True`, `Inference.run` performs exactly
`opt_args["trials"]` independent ADVI fits (the i-th list entry being the
result of the i-th `pm.fit` call), and the warm start is the trial whose
minimum loss over its recorded history (`np.min(approx.hist)`) is lowest
among all trials. -/
theorem run_optimize_trials_and_selection (n : ℕ) (fit : ℕ → Approx) (hn : 0 < n) :
    (optimizeTrials n fit).length = n
    ∧ (∀ i, i < n → (optimizeTrials n fit)[i]? = some (fit i))
    ∧ bestTrialIdx n fit < n
    ∧ (∀ j, j < n → npMin (bestTrial n fit).hist ≤ npMin (fit j).hist) := by
  have hlen : (optimizeTrials n fit).length = n := by simp [optimizeTrials]
  have hmlen : (minTrials n fit).length = n := minTrials_length n fit
  have hne : minTrials n fit ≠ [] := by
    intro h
    rw [h] at hmlen
    simp at hmlen
    omega
  have hidx : bestTrialIdx n fit < n := by
    have := npArgmin_lt_length (minTrials n fit) hne
    rwa [hmlen] at this
  refine ⟨hlen, fun i hi => optimizeTrials_getElem n fit i hi, hidx, fun j hj => ?_⟩
  have hjm : npMin (fit j).hist ∈ minTrials n fit := by
    simp only [minTrials, optimizeTrials, List.map_map, List.mem_map]
    exact ⟨j, List.mem_range.mpr hj, rfl⟩
  have hle : (minTrials n fit).getD (bestTrialIdx n fit) 0 ≤ npMin (fit j).hist :=
    npArgmin_le (minTrials n fit) hne (npMin (fit j).hist) hjm
  have hidx2 : bestTrialIdx n fit < (minTrials n fit).length := by rwa [hmlen]
  have hidx3 : bestTrialIdx n fit < (optimizeTrials n fit).length := by rwa [hlen]
  have hval : (minTrials n fit).getD (bestTrialIdx n fit) 0
      = npMin (bestTrial n fit).hist := by
    rw [List.getD_eq_getElem _ 0 hidx2, bestTrial,
        List.getD_eq_getElem _ default hidx3]
    simp [minTrials]
  rwa [hval] at hle

/-- C1 witness: at a concrete single-trial input the selection bound and the
minimality property hold. -/
theorem run_optimize_trials_and_selection_witness :
    bestTrialIdx 1 (fun _ => ⟨[2]⟩) < 1
    ∧ npMin (bestTrial 1 (fun _ => ⟨[2]⟩)).hist ≤ npMin ((⟨[2]⟩ : Approx)).hist :=
  ⟨(run_optimize_trials_and_selection 1 (fun _ => ⟨[2]⟩) (by decide)).2.2.1,
   (run_optimize_trials_and_selection 1 (fun _ => ⟨[2]⟩) (by decide)).2.2.2 0 (by decide)⟩

/-- C1 counterexample: the code selects trial 0 (whose loss history dips to 1
but ends at 5) although trial 1 has the strictly lowest final loss (3), so
the warm start is not taken from the trial with the lowest final loss. -/
theorem run_optimize_not_final_loss_cex :
    bestTrialIdx 2 fitCex = 0
    ∧ lastLoss (fitCex 1) < lastLoss (fitCex 0)
    ∧ bestTrial 2 fitCex = fitCex 0
    ∧ ¬ (∀ j, j < 2 → lastLoss (bestTrial 2 fitCex) ≤ lastLoss (fitCex j)) := by
  have h0 : bestTrialIdx 2 fitCex = 0 := rfl
  have h1 : lastLoss (fitCex 1) < lastLoss (fitCex 0) := by
    norm_num [fitCex, lastLoss]
  have h2 : bestTrial 2 fitCex = fitCex 0 := rfl
  refine ⟨h0, h1, h2, fun hall => ?_⟩
  have := hall 1 (by omega)
  rw [h2] at this
  exact absurd this (not_le.mpr h1)

lemma foldl_max_init_le (l : List ℚ) (a : ℚ) : a ≤ l.foldl max a := by
  induction l generalizing a with
  | nil => exact le_refl a
  | cons x xs ih => exact le_trans (le_max_left a x) (ih (max a x))

lemma foldl_max_mem_le (l : List ℚ) (a x : ℚ) (hx : x ∈ l) : x ≤ l.foldl max a := by
  induction l generalizing a with
  | nil => cases hx
  | cons y ys ih =>
      rcases List.mem_cons.mp hx with h | h
      · subst h
        exact le_trans (le_max_right a x) (foldl_max_init_le ys (max a x))
      · exact ih (max a y) h

lemma le_npMax (l : List ℚ) (x : ℚ) (hx : x ∈ l) : x ≤ npMax l := by
  cases l with
  | nil => cases hx
  | cons y ys =>
      rcases List.mem_cons.mp hx with h | h
      · subst h
        exact foldl_max_init_le ys x
      · exact foldl_max_mem_le ys y x h

lemma foldl_max_mem (l : List ℚ) (a : ℚ) : l.foldl max a = a ∨ l.foldl max a ∈ l := by
  induction l generalizing a with
  | nil => exact Or.inl rfl
  | cons x xs ih =>
      rcases ih (max a x) with h | h
      · rcases max_choice a x with hm | hm
        · exact Or.inl (by simp only [List.foldl_cons]; rw [h, hm])
        · refine Or.inr ?_
          simp only [List.foldl_cons]
          rw [h, hm]
          exact List.mem_cons_self x xs
      · exact Or.inr (List.mem_cons_of_mem x h)

lemma npMax_mem (l : List ℚ) (hl : l ≠ []) : npMax l ∈ l := by
  cases l with
  | nil => exact absurd rfl hl
  | cons y ys =>
      rcases foldl_max_mem ys y with h | h
      · rw [npMax, h]; exact List.mem_cons_self y ys
      · exact List.mem_cons_of_mem y h

lemma npArgmax_lt_length (l : List ℚ) (hl : l ≠ []) : npArgmax l < l.length := by
  apply List.findIdx_lt_length_of_exists
  exact ⟨npMax l, npMax_mem l hl, by simp⟩

lemma npArgmax_ge (l : List ℚ) (hl : l ≠ []) (x : ℚ) (hx : x ∈ l) :
    x ≤ l.getD (npArgmax l) 0 := by
  have hlt : npArgmax l < l.length := npArgmax_lt_length l hl
  have h1 : decide (npMax l ≤ l[npArgmax l]) = true :=
    List.findIdx_getElem (w := hlt)
  have h2 : npMax l ≤ l[npArgmax l] := of_decide_eq_true h1
  rw [List.getD_eq_getElem l 0 hlt]
  exact le_trans (le_npMax l x hx) h2

lemma foldl_modeStep_count_ge (l : List ℕ) (xs : List ℕ) (b : ℕ) :
    l.count b ≤ l.count (xs.foldl
      (fun b v =>
        if l.count v > l.count b ∨ (l.count v = l.count b ∧ v < b) then v else b) b)
    ∧ ∀ x ∈ xs, l.count x ≤ l.count (xs.foldl
      (fun b v =>
        if l.count v > l.count b ∨ (l.count v = l.count b ∧ v < b) then v else b) b) := by
  induction xs generalizing b with
  | nil => exact ⟨le_refl _, fun x hx => absurd hx (List.not_mem_nil x)⟩
  | cons y ys ih =>
      have hstep : l.count b ≤ l.count
          (if l.count y > l.count b ∨ (l.count y = l.count b ∧ y < b) then y else b)
          ∧ l.count y ≤ l.count
          (if l.count y > l.count b ∨ (l.count y = l.count b ∧ y < b) then y else b) := by
        split_ifs with hc
        · rcases hc with hgt | ⟨heq, _⟩
          · exact ⟨le_of_lt hgt, le_refl _⟩
          · exact ⟨le_of_eq heq.symm, le_refl _⟩
        · push_neg at hc
          exact ⟨le_refl _, hc.1⟩
      simp only [List.foldl_cons]
      refine ⟨le_trans hstep.1 (ih _).1, fun x hx => ?_⟩
      rcases List.mem_cons.mp hx with h | h
      · subst h
        exact le_trans hstep.2 (ih _).1
      · exact (ih _).2 x h

lemma stMode_count_ge (l : List ℕ) (v : ℕ) (hv : v ∈ l) :
    l.count v ≤ l.count (stMode l) :=
  (foldl_modeStep_count_ge l l (l.headD 0)).2 v hv

/-- C6 (amended): for GMM and CGMM priors, `_classify` labels each star with
the most frequent vote over the sampled draws, where each vote is the
component maximizing the drawn log density; GUM and every non-mixture prior
receive the constant label 0; the draw-sample size used by `save_statistics`
is 100, or the total draw count when at most 100 draws are available. -/
theorem classify_mixture_votes (prior : String) (nSources nDraws nComp : ℕ)
    (loglk : ℕ → ℕ → ℕ → ℚ)
    (hp : prior = "GMM" ∨ prior = "CGMM") (hcomp : 0 < nComp) :
    (∀ i, i < nSources →
      (classify prior nSources loglk nDraws nComp)[i]? =
        some (stMode (sourceVotes loglk nDraws nComp i)))
    ∧ (∀ i v, v ∈ sourceVotes loglk nDraws nComp i →
        (sourceVotes loglk nDraws nComp i).count v
          ≤ (sourceVotes loglk nDraws nComp i).count
              (stMode (sourceVotes loglk nDraws nComp i)))
    ∧ (∀ i j, classifyVote loglk nComp i j < nComp
        ∧ ∀ k, k < nComp → loglk i j k ≤ loglk i j (classifyVote loglk nComp i j))
    ∧ (∀ p2, ¬ (p2 = "GMM" ∨ p2 = "CGMM") →
        classify p2 nSources loglk nDraws nComp = List.replicate nSources 0)
    ∧ (100 < nDraws → classifyNSamples nDraws = 100)
    ∧ (nDraws ≤ 100 → classifyNSamples nDraws = nDraws) := by
  refine ⟨fun i hi => ?_, fun i v hv => stMode_count_ge _ v hv, fun i j => ?_,
    fun p2 hp2 => by simp [classify, hp2], fun h => by simp [classifyNSamples, h],
    fun h => by simp [classifyNSamples]; omega⟩
  · rw [classify, if_pos hp]
    simp [List.getElem?_map, List.getElem?_range hi]
  · have hlist : ((List.range nComp).map (loglk i j)).length = nComp := by simp
    have hne : (List.range nComp).map (loglk i j) ≠ [] := by
      intro h
      rw [h] at hlist
      simp at hlist
      omega
    constructor
    · have := npArgmax_lt_length _ hne
      rwa [hlist] at this
    · intro k hk
      have hmem : loglk i j k ∈ (List.range nComp).map (loglk i j) :=
        List.mem_map.mpr ⟨k, List.mem_range.mpr hk, rfl⟩
      have hge := npArgmax_ge _ hne _ hmem
      have hlt : npArgmax ((List.range nComp).map (loglk i j))
          < ((List.range nComp).map (loglk i j)).length := npArgmax_lt_length _ hne
      rw [List.getD_eq_getElem _ 0 hlt] at hge
      simpa [classifyVote] using hge

/-- C6 witness: concrete one-star, two-component, one-draw instance of the
amended classification theorem. -/
theorem classify_mixture_votes_witness :
    (classify "GMM" 1 loglkCex 1 2)[0]? = some (stMode (sourceVotes loglkCex 1 2 0))
    ∧ classifyNSamples 1 = 1 :=
  ⟨(classify_mixture_votes "GMM" 1 1 2 loglkCex (Or.inl rfl) (by decide)).1 0
      (by decide),
   (classify_mixture_votes "GMM" 1 1 2 loglkCex (Or.inl rfl) (by decide)).2.2.2.2.2
      (by decide)⟩

/-- C6 counterexample: with the mixture-family prior "GUM" the source takes
the `np.zeros` branch, so the star gets label 0 although the most frequent
vote over the draws is component 1; the claim fails for GUM. -/
theorem classify_gum_constant_cex :
    classify "GUM" 1 loglkCex 1 2 = [0]
    ∧ stMode (sourceVotes loglkCex 1 2 0) = 1
    ∧ classify "GUM" 1 loglkCex 1 2 ≠ [stMode (sourceVotes loglkCex 1 2 0)] := by
  refine ⟨rfl, rfl, ?_⟩
  intro h
  have h1 : ([0] : List ℕ) = [1] := h
  simp at h1

lemma mixtureTail_ne_weight_errors (D : ℕ) (prior parametrization : String)
    (p : Params) (h : Hyper) :
    mixtureTail D prior parametrization p h ≠ .error "hyper_delta must be specified."
    ∧ mixtureTail D prior parametrization p h ≠ .error "weights must be greater than 5%." := by
  unfold mixtureTail tailChecks
  split_ifs <;> refine ⟨fun hc => ?_, fun hc => ?_⟩ <;>
    first
      | exact Except.noConfusion hc
      | (injection hc with hs; exact absurd hs (by decide))

/-- C8: for a mixture-family prior (GMM, CGMM, GUM), with the checks that
precede the mixture branch passing, `setup` fails fatally when `weights` is
unspecified and `hyper_delta` is absent, fails fatally when explicit weights
have minimum not above the 0.05 floor, and otherwise passes the weight
checks (neither weight-related message can be the outcome). -/
theorem setup_mixture_weight_checks (D : ℕ)
    (prior transformation parametrization : String) (p : Params) (h : Hyper)
    (hmix : prior = "GMM" ∨ prior = "CGMM" ∨ prior = "GUM")
    (htr : transformation = "pc" ∨ transformation = "mas")
    (htr2 : ¬ ((D = 3 ∨ D = 6) ∧ ¬ transformation = "pc"))
    (hloc : ¬ (p.location = none ∧ h.alpha = none))
    (hscale : ¬ (p.scale = none ∧ h.beta = none)) :
    (p.weights = none → h.delta = none →
      setupChecks D prior transformation parametrization p h
        = .error "hyper_delta must be specified.")
    ∧ (∀ w, p.weights = some w → ¬ npMin w > 0.05 →
      setupChecks D prior transformation parametrization p h
        = .error "weights must be greater than 5%.")
    ∧ (p.weights = none → ¬ h.delta = none →
      setupChecks D prior transformation parametrization p h
          ≠ .error "hyper_delta must be specified."
        ∧ setupChecks D prior transformation parametrization p h
          ≠ .error "weights must be greater than 5%.")
    ∧ (∀ w, p.weights = some w → npMin w > 0.05 →
      setupChecks D prior transformation parametrization p h
          ≠ .error "hyper_delta must be specified."
        ∧ setupChecks D prior transformation parametrization p h
          ≠ .error "weights must be greater than 5%.") := by
  have hE : ¬ (prior = "EDSD" ∧ ¬ D = 1) := by
    rcases hmix with hm | hm | hm <;> subst hm <;>
      exact fun hc => absurd hc.1 (by decide)
  have hU : ¬ (prior = "Uniform" ∧ ¬ D = 1) := by
    rcases hmix with hm | hm | hm <;> subst hm <;>
      exact fun hc => absurd hc.1 (by decide)
  have hred : setupChecks D prior transformation parametrization p h
      = mixtureChecks D prior parametrization p h := by
    rw [setupChecks, if_neg (not_not_intro htr), if_neg htr2, if_neg hloc,
        if_neg hscale, if_neg hE, if_neg hU, if_pos hmix]
  refine ⟨fun hw hd => ?_, fun w hw hlo => ?_, fun hw hd => ?_, fun w hw hhi => ?_⟩
  · rw [hred, mixtureChecks, hw]
    simp [hd]
  · rw [hred, mixtureChecks, hw]
    simp only [if_pos hlo]
  · rw [hred, mixtureChecks, hw]
    simp only [if_neg hd]
    exact mixtureTail_ne_weight_errors D prior parametrization p h
  · rw [hred, mixtureChecks, hw]
    simp only [if_neg (not_not_intro hhi)]
    exact mixtureTail_ne_weight_errors D prior parametrization p h

/-- C8 witness: a concrete GMM configuration with unspecified weights and
absent hyper_delta fails with the hyper_delta message. -/
theorem setup_mixture_weight_checks_witness :
    setupChecks 3 "GMM" "pc" "central"
        ⟨some [], some [], none, none, none⟩ ⟨none, none, none, none⟩
      = .error "hyper_delta must be specified." :=
  (setup_mixture_weight_checks 3 "GMM" "pc" "central"
      ⟨some [], some [], none, none, none⟩ ⟨none, none, none, none⟩
      (Or.inl rfl) (Or.inl rfl) (by decide) (by decide) (by decide)).1 rfl rfl

/-- C9: the posterior-present, prior-absent load succeeds with the prior
recorded absent, as claimed; but on a dataset with no posterior group the
arviz attribute access raises AttributeError, which the except-ValueError
guard of `load_trace` never catches, so the load dies on the uncaught
AttributeError and the `sys.exit` message naming the file is unreachable:
no message at all is produced by the handler. -/
theorem load_trace_group_handling (file : String) (ds : AzData) :
    (∀ post, ds.posterior = some post → ds.prior = none →
      loadTraceGroups file ds = .ok post none)
    ∧ (ds.posterior = none →
      loadTraceGroups file ds = .uncaught (.attributeError "posterior"))
    ∧ (ds.posterior = none →
      ∀ msg, ¬ loadTraceGroups file ds = .fatalExit msg) := by
  refine ⟨fun post hpost hprior => ?_, fun hpost => ?_, fun hpost msg hc => ?_⟩
  · rw [loadTraceGroups, fromNetcdfPosterior, hpost, hprior]
  · rw [loadTraceGroups, fromNetcdfPosterior, hpost]
  · rw [loadTraceGroups, fromNetcdfPosterior, hpost] at hc
    exact LoadTraceOutcome.noConfusion hc

/-- C9 witness: a concrete posterior-only dataset loads with prior `none`,
and a concrete dataset without a posterior group dies on the uncaught
AttributeError, never reaching the fatal message naming the file. -/
theorem load_trace_group_handling_witness :
    loadTraceGroups "chains.nc" ⟨some ["3D_source"], none⟩
      = .ok ["3D_source"] none
    ∧ loadTraceGroups "chains.nc" ⟨none, some ["3D_source"]⟩
      = .uncaught (.attributeError "posterior")
    ∧ ¬ loadTraceGroups "chains.nc" ⟨none, some ["3D_source"]⟩
      = .fatalExit ("There is no posterior group in " ++ "chains.nc") :=
  ⟨(load_trace_group_handling "chains.nc" ⟨some ["3D_source"], none⟩).1
      ["3D_source"] rfl rfl,
   (load_trace_group_handling "chains.nc" ⟨none, some ["3D_source"]⟩).2.1 rfl,
   (load_trace_group_handling "chains.nc" ⟨none, some ["3D_source"]⟩).2.2 rfl
      ("There is no posterior group in " ++ "chains.nc")⟩

/-- C10: on any instance whose attributes all come from assignments the
class actually performs, `evidence` at dimension 1 stops with an
AttributeError on `hyper_alpha` before reaching `Evidence1D`, because none
of `hyper_alpha`, `hyper_beta`, `hyper_gamma`, `hyper_delta` is ever
assigned by any operation of the class. -/
theorem evidence_missing_hyper_attrs (attrs : List String)
    (hsub : ∀ a ∈ attrs, a ∈ assignedAttrs)
    (hmu : "mu_data" ∈ attrs) (hsg : "sg_data" ∈ attrs)
    (hpr : "prior" ∈ attrs) (hpa : "parameters" ∈ attrs) :
    evidenceCall 1 attrs = .error ("AttributeError: " ++ "hyper_alpha")
    ∧ ("hyper_alpha" ∉ assignedAttrs ∧ "hyper_beta" ∉ assignedAttrs
       ∧ "hyper_gamma" ∉ assignedAttrs ∧ "hyper_delta" ∉ assignedAttrs)
    ∧ ∀ u, evidenceCall 1 attrs ≠ .ok u := by
  have hc1 : attrs.contains "mu_data" = true := List.elem_iff.mpr hmu
  have hc2 : attrs.contains "sg_data" = true := List.elem_iff.mpr hsg
  have hc3 : attrs.contains "prior" = true := List.elem_iff.mpr hpr
  have hc4 : attrs.contains "parameters" = true := List.elem_iff.mpr hpa
  have hc5 : attrs.contains "hyper_alpha" = false := by
    by_contra hc
    have hmem : "hyper_alpha" ∈ attrs :=
      List.elem_iff.mp (eq_true_of_ne_false hc)
    exact absurd (hsub _ hmem) (by decide)
  have hmain : evidenceCall 1 attrs = .error ("AttributeError: " ++ "hyper_alpha") := by
    rw [evidenceCall, if_neg (not_not_intro rfl)]
    simp only [evidenceReads, List.find?_cons, hc1, hc2, hc3, hc4, hc5,
      Bool.not_true, Bool.not_false]
  refine ⟨hmain, by decide, fun u hc => ?_⟩
  rw [hmain] at hc
  exact Except.noConfusion hc

/-- C10 witness: the full set of attributes the class can ever assign still
lacks the hyper_alpha read, so evidence at dimension 1 raises the
AttributeError. -/
theorem evidence_missing_hyper_attrs_witness :
    evidenceCall 1 assignedAttrs = .error ("AttributeError: " ++ "hyper_alpha") :=
  (evidence_missing_hyper_attrs assignedAttrs (fun _ ha => ha)
      (by decide) (by decide) (by decide) (by decide)).1

/-- C7: the identifier sequence persisted to the Identifiers file by
`load_data` and read back by `load_trace` equals, header dropped, the
in-memory identifier sequence `self.ID` (the ids of the surviving rows in
catalog order). -/
theorem identifiers_round_trip (D : ℕ) (id_name : String)
    (zero_point : Fin D → ℚ) (raw : List (RawStar D)) (indep : Bool)
    (cov_plx cov_pms : ℕ → ℕ → ℚ) (cholOk : (ℕ → ℕ → ℚ) → Bool)
    (r : LoadResult D)
    (hr : load_data D id_name zero_point raw indep cov_plx cov_pms cholOk = .ok r) :
    readIdsCsv r.fileIds = r.ID
    ∧ r.ID = (filteredStars D raw).map RawStar.id := by
  simp only [load_data] at hr
  split_ifs at hr <;> injection hr with hr <;> subst hr <;> exact ⟨rfl, rfl⟩

/-- C7 witness: concrete catalog whose persisted identifier file reloads to
the in-memory identifier list. -/
theorem identifiers_round_trip_witness :
    readIdsCsv exRes6.fileIds = exRes6.ID
    ∧ exRes6.ID = (filteredStars 6 exRaw6).map RawStar.id :=
  identifiers_round_trip 6 "source_id" exZp6 exRaw6 true exCovOne exCovOne
    exCholTrue exRes6 rfl

/-- C5: in the non-independent path, a failed Cholesky test on the parallax
cross-star covariance terminates `load_data` fatally naming the parallax
matrix; a failed test on the proper-motion covariance (D=6, after the
parallax test passed) terminates fatally naming the proper-motion matrix;
in either situation no load result is produced. -/
theorem load_data_pd_failure (D : ℕ) (id_name : String)
    (zero_point : Fin D → ℚ) (raw : List (RawStar D))
    (cov_plx cov_pms : ℕ → ℕ → ℚ) (cholOk : (ℕ → ℕ → ℚ) → Bool) :
    (cholOk cov_plx = false →
      load_data D id_name zero_point raw false cov_plx cov_pms cholOk
        = .error "Covariance matrix of parallax correlations is not positive definite!")
    ∧ (cholOk cov_plx = true → D = 6 → cholOk cov_pms = false →
      load_data D id_name zero_point raw false cov_plx cov_pms cholOk
        = .error "Covariance matrix of proper motions correlations is not positive definite!")
    ∧ ((cholOk cov_plx = false ∨ (D = 6 ∧ cholOk cov_pms = false)) →
      ∀ r, ¬ load_data D id_name zero_point raw false cov_plx cov_pms cholOk
        = .ok r) := by
  refine ⟨fun hplx => ?_, fun hplx hD6 hpms => ?_, fun hbad r hok => ?_⟩
  · simp only [load_data]
    rw [if_neg (by simp), if_pos hplx]
  · simp only [load_data]
    rw [if_neg (by simp), if_neg (by simp [hplx]), if_pos hD6, if_pos hpms]
  · rcases hbad with hplx | ⟨hD6, hpms⟩
    · simp only [load_data] at hok
      rw [if_neg (by simp), if_pos hplx] at hok
      exact Except.noConfusion hok
    · by_cases hplx : cholOk cov_plx = false
      · simp only [load_data] at hok
        rw [if_neg (by simp), if_pos hplx] at hok
        exact Except.noConfusion hok
      · simp only [load_data] at hok
        rw [if_neg (by simp), if_neg hplx, if_pos hD6, if_pos hpms] at hok
        exact Except.noConfusion hok

/-- C5 witness: with an always-failing Cholesky test the concrete 6D load
terminates with the parallax message. -/
theorem load_data_pd_failure_witness :
    load_data 6 "source_id" exZp6 exRaw6 false exCovOne exCovOne (fun _ => false)
      = .error "Covariance matrix of parallax correlations is not positive definite!" :=
  (load_data_pd_failure 6 "source_id" exZp6 exRaw6 exCovOne exCovOne
      (fun _ => false)).1 rfl

lemma mem_pairIdx (D N : ℕ) (p : ℕ × Fin D) : p ∈ pairIdx D N ↔ p.1 < N := by
  constructor
  · intro hp
    simp only [pairIdx, List.mem_flatMap, List.mem_map, List.mem_range] at hp
    obtain ⟨a, ha, d, _, hda⟩ := hp
    rw [← hda]
    exact ha
  · intro hp
    simp only [pairIdx, List.mem_flatMap, List.mem_map, List.mem_range]
    exact ⟨p.1, hp, p.2, List.mem_finRange p.2, rfl⟩

/-- C2: a 6D catalog row whose only missing cells are the radial velocity
and its uncertainty survives the missing-value filter of `load_data`, and
the observed index subset (to which mean and covariance are restricted
before the external inversion) contains exactly the five non-radial-velocity
coordinates of that star. -/
theorem load_data_missing_rv (raw : List (RawStar 6)) (id_name : String)
    (zero_point : Fin 6 → ℚ) (indep : Bool) (cov_plx cov_pms : ℕ → ℕ → ℚ)
    (cholOk : (ℕ → ℕ → ℚ) → Bool) (s : RawStar 6) (i : ℕ) (r : LoadResult 6)
    (hmu5 : s.mu ⟨5, by omega⟩ = none) (hsd5 : s.sd ⟨5, by omega⟩ = none)
    (hobs : ∀ d : Fin 6, ¬ d.val = 5 →
      (s.mu d).isSome = true ∧ (s.sd d).isSome = true)
    (hcorr : ∀ c ∈ s.corr, c.isSome = true)
    (hi : (filteredStars 6 raw)[i]? = some s)
    (hr : load_data 6 id_name zero_point raw indep cov_plx cov_pms cholOk
      = .ok r) :
    retained s = true
    ∧ ∀ d : Fin 6, ((i, d) ∈ r.obsIdx ↔ ¬ d.val = 5) := by
  have hret : retained s = true := by
    simp only [retained]
    rw [if_neg (by omega)]
    simp only [Bool.true_and, Bool.and_eq_true]
    refine ⟨List.all_eq_true.mpr fun d _ => ?_, List.all_eq_true.mpr hcorr⟩
    by_cases hd5 : d.val = 5
    · simp [hd5]
    · simp [hd5, (hobs d hd5).1, (hobs d hd5).2]
  have hiN : i < (filteredStars 6 raw).length := by
    rcases List.getElem?_eq_some_iff.mp hi with ⟨h, _⟩
    exact h
  have hmuJ : ∀ d : Fin 6,
      jointMu 6 zero_point (filteredStars 6 raw) i d
        = (s.mu d).map (fun x => x - zero_point d) := by
    intro d
    simp only [jointMu, hi]
  have hkey : ∀ d : Fin 6,
      ((i, d) ∈ (pairIdx 6 (filteredStars 6 raw).length).filter
          (fun p => (jointMu 6 zero_point (filteredStars 6 raw) p.1 p.2).isSome)
        ↔ ¬ d.val = 5) := by
    intro d
    rw [List.mem_filter, mem_pairIdx]
    constructor
    · rintro ⟨_, hsome⟩ hd5
      have hd : d = ⟨5, by omega⟩ := Fin.ext hd5
      rw [hmuJ, hd, hmu5] at hsome
      simp at hsome
    · intro hd5
      refine ⟨hiN, ?_⟩
      rw [hmuJ]
      simpa using (hobs d hd5).1
  refine ⟨hret, ?_⟩
  simp only [load_data] at hr
  split_ifs at hr <;> injection hr with hr <;> subst hr <;>
    simpa only [mkLoadResult] using hkey

/-- C2 witness: the concrete 6D row missing only radial velocity is
retained and its parallax coordinate is in the observed subset while its
radial-velocity coordinate is not. -/
theorem load_data_missing_rv_witness :
    retained exStarRV = true
    ∧ ((0, (2 : Fin 6)) ∈ exRes6.obsIdx ↔ ¬ (2 : Fin 6).val = 5)
    ∧ ((0, (5 : Fin 6)) ∈ exRes6.obsIdx ↔ ¬ (5 : Fin 6).val = 5) :=
  have h := load_data_missing_rv exRaw6 "source_id" exZp6 true exCovOne exCovOne
    exCholTrue exStarRV 0 exRes6 rfl rfl
    (by intro d hd; refine ⟨?_, ?_⟩ <;> simp [exStarRV, hd])
    (by intro c hc; simp [exStarRV] at hc; simp [hc])
    rfl rfl
  ⟨h.1, h.2 2, h.2 5⟩

lemma triuPairs_lt (D : ℕ) (p : Fin D × Fin D) (hp : p ∈ triuPairs D) :
    p.1 < p.2 := by
  simp only [triuPairs, List.mem_flatMap, List.mem_map, List.mem_filter] at hp
  obtain ⟨a, _, b, ⟨_, hab⟩, hba⟩ := hp
  rw [← hba]
  exact of_decide_eq_true hab

lemma idxTru_lt (D : ℕ) (p : Fin D × Fin D) (hp : p ∈ idxTru D) :
    p.1 < p.2 := by
  rw [idxTru] at hp
  split_ifs at hp
  · exact triuPairs_lt D p (List.mem_filter.mp hp).1
  · exact triuPairs_lt D p hp

lemma idxTru_col (p : Fin 6 × Fin 6) (hp : p ∈ idxTru 6) : ¬ p.2.val = 5 := by
  rw [idxTru, if_pos rfl] at hp
  exact of_decide_eq_true (List.mem_filter.mp hp).2

lemma upOf_eq_zero (D : ℕ) (corr : List (Option ℚ)) (a b : Fin D)
    (hnot : ∀ p ∈ idxTru D, ¬ p = (a, b)) : upOf D corr a b = some 0 := by
  rw [upOf]
  have hnone : ((idxTru D).zip corr).find? (fun pv => decide (pv.1 = (a, b)))
      = none := by
    apply List.find?_eq_none.mpr
    rintro ⟨p, v⟩ hpv
    simp only [decide_eq_true_eq]
    exact hnot p (List.of_mem_zip hpv).1
  rw [hnone]

lemma upOf_not_lt (D : ℕ) (corr : List (Option ℚ)) (a b : Fin D)
    (h : ¬ a < b) : upOf D corr a b = some 0 := by
  apply upOf_eq_zero
  intro p hp hpe
  have := idxTru_lt D p hp
  rw [hpe] at this
  exact h this

lemma oadd_comm (a b : Option ℚ) : oadd a b = oadd b a := by
  cases a <;> cases b <;> simp [oadd, add_comm]

lemma rhoOf_diag (D : ℕ) (corr : List (Option ℚ)) (d : Fin D) :
    rhoOf D corr d d = some 1 := by
  rw [rhoOf, upOf_not_lt D corr d d (lt_irrefl d), if_pos rfl]
  simp [oadd]

lemma rhoOf_symm (D : ℕ) (corr : List (Option ℚ)) (i j : Fin D) :
    rhoOf D corr i j = rhoOf D corr j i := by
  by_cases h : i = j
  · subst h; rfl
  · rw [rhoOf, rhoOf, oadd_comm (upOf D corr i j) (upOf D corr j i),
      if_neg h, if_neg (fun hc => h hc.symm)]

lemma find_zip_nodup {α : Type} [DecidableEq α] (pairs : List α)
    (vals : List (Option ℚ)) (k : ℕ) (hnd : pairs.Nodup)
    (hk : k < pairs.length) (hkv : k < vals.length) :
    (pairs.zip vals).find? (fun pv => decide (pv.1 = pairs.get ⟨k, hk⟩))
      = some (pairs.get ⟨k, hk⟩, vals.get ⟨k, hkv⟩) := by
  induction pairs generalizing vals k with
  | nil => simp at hk
  | cons p ps ih =>
      cases vals with
      | nil => simp at hkv
      | cons v vs =>
          cases k with
          | zero => simp [List.find?]
          | succ k =>
              have hcons := List.nodup_cons.mp hnd
              have hk2 : k < ps.length := by simpa using hk
              have hkv2 : k < vs.length := by simpa using hkv
              have hne : ¬ p = ps.get ⟨k, hk2⟩ := by
                intro he
                exact hcons.1 (he ▸ List.get_mem ps k hk2)
              have hget : (p :: ps).get ⟨k + 1, hk⟩ = ps.get ⟨k, hk2⟩ := rfl
              rw [List.zip_cons_cons, hget, List.find?_cons_of_neg _ (by simpa using hne)]
              exact ih vs k hcons.2 hk2 hkv2

lemma upOf_at (D : ℕ) (corr : List (Option ℚ)) (k : ℕ)
    (hnd : (idxTru D).Nodup) (hk : k < (idxTru D).length)
    (hkc : k < corr.length) :
    upOf D corr ((idxTru D).get ⟨k, hk⟩).1 ((idxTru D).get ⟨k, hk⟩).2
      = corr.get ⟨k, hkc⟩ := by
  rw [upOf]
  have hpair : ((((idxTru D).get ⟨k, hk⟩).1, ((idxTru D).get ⟨k, hk⟩).2))
      = (idxTru D).get ⟨k, hk⟩ := rfl
  rw [hpair, find_zip_nodup (idxTru D) corr k hnd hk hkc]

lemma rhoOf_at (D : ℕ) (corr : List (Option ℚ)) (k : ℕ)
    (hnd : (idxTru D).Nodup) (hk : k < (idxTru D).length)
    (hkc : k < corr.length) (c : ℚ) (hc : corr.get ⟨k, hkc⟩ = some c) :
    rhoOf D corr ((idxTru D).get ⟨k, hk⟩).1 ((idxTru D).get ⟨k, hk⟩).2
      = some c := by
  have hmem : (idxTru D).get ⟨k, hk⟩ ∈ idxTru D := List.get_mem (idxTru D) k hk
  have hlt := idxTru_lt D _ hmem
  rw [rhoOf, upOf_at D corr k hnd hk hkc, hc,
    upOf_not_lt D corr _ _ (lt_asymm hlt), if_neg (ne_of_lt hlt)]
  simp [oadd]

lemma upOf6_rv (corr : List (Option ℚ)) (a b : Fin 6)
    (h5 : a.val = 5 ∨ b.val = 5) (hne : ¬ a = b) : upOf 6 corr a b = some 0 := by
  apply upOf_eq_zero
  rintro ⟨pa, pb⟩ hp hpe
  injection hpe with h1 h2
  subst h1
  subst h2
  have hlt := idxTru_lt 6 (pa, pb) hp
  have hcol := idxTru_col (pa, pb) hp
  have hab : pa.val < pb.val := hlt
  have hcol2 : ¬ pb.val = 5 := hcol
  rcases h5 with h | h
  · have hb := pb.isLt
    omega
  · exact hcol2 h

lemma rhoOf6_rv (corr : List (Option ℚ)) (d e : Fin 6) (hne : ¬ d = e)
    (h5 : d.val = 5 ∨ e.val = 5) : rhoOf 6 corr d e = some 0 := by
  rw [rhoOf, upOf6_rv corr d e h5 hne,
    upOf6_rv corr e d h5.symm (fun hc => hne hc.symm), if_neg hne]
  simp [oadd]

/-- C3: for every surviving record the per-star mean is the raw measurement
minus the zero point; the correlation matrix is symmetric with unit
diagonal and carries the stored coefficient of the k-th upper-triangle
position at that position; the per-star covariance block is
diag(sd) rho diag(sd); and for D=6 the correlation entries in the
radial-velocity row and column vanish, so the off-diagonal covariance
entries in that row and column are zero whenever the uncertainties are
finite. -/
theorem per_star_mean_and_covariance (D : ℕ) (hD : D = 1 ∨ D = 3 ∨ D = 6)
    (corr : List (Option ℚ)) (zero_point : Fin D → ℚ)
    (stars : List (RawStar D)) :
    (∀ (i : ℕ) (s : RawStar D) (d : Fin D), stars[i]? = some s →
      jointMu D zero_point stars i d = (s.mu d).map (fun x => x - zero_point d))
    ∧ (∀ d e : Fin D, rhoOf D corr d e = rhoOf D corr e d)
    ∧ (∀ d : Fin D, rhoOf D corr d d = some 1)
    ∧ (∀ (k : ℕ) (hk : k < (idxTru D).length) (hkc : k < corr.length) (c : ℚ),
        corr.get ⟨k, hkc⟩ = some c →
        rhoOf D corr ((idxTru D).get ⟨k, hk⟩).1 ((idxTru D).get ⟨k, hk⟩).2
          = some c)
    ∧ (∀ (i : ℕ) (s : RawStar D) (d e : Fin D), stars[i]? = some s →
        sgBlock D stars (i, d) (i, e) = sigmaOf s.sd (rhoOf D s.corr) d e)
    ∧ (∀ (corr6 : List (Option ℚ)) (d e : Fin 6), ¬ d = e →
        (d.val = 5 ∨ e.val = 5) → rhoOf 6 corr6 d e = some 0)
    ∧ (∀ (corr6 : List (Option ℚ)) (sd6 : Fin 6 → Option ℚ) (d e : Fin 6)
        (a b : ℚ), ¬ d = e → (d.val = 5 ∨ e.val = 5) →
        sd6 d = some a → sd6 e = some b →
        sigmaOf sd6 (rhoOf 6 corr6) d e = some 0) := by
  have hnd : (idxTru D).Nodup := by
    rcases hD with h | h | h <;> subst h <;> decide
  refine ⟨fun i s d hi => by simp [jointMu, hi],
    fun d e => rhoOf_symm D corr d e,
    fun d => rhoOf_diag D corr d,
    fun k hk hkc c hc => rhoOf_at D corr k hnd hk hkc c hc,
    fun i s d e hi => by simp [sgBlock, hi],
    fun corr6 d e hne h5 => rhoOf6_rv corr6 d e hne h5,
    fun corr6 sd6 d e a b hne h5 ha hb => ?_⟩
  rw [sigmaOf, rhoOf6_rv corr6 d e hne h5, ha, hb]
  simp [omul]

/-- C3 witness: concrete 6D record: the joint mean is the zero-point
corrected measurement, the correlation matrix has unit diagonal, and the
correlation between the first coordinate and the radial velocity is zero. -/
theorem per_star_mean_and_covariance_witness :
    jointMu 6 exZp6 (filteredStars 6 exRaw6) 0 2
      = (exStarRV.mu 2).map (fun x => x - exZp6 2)
    ∧ rhoOf 6 exStarRV.corr 0 0 = some 1
    ∧ rhoOf 6 exStarRV.corr 0 5 = some 0 :=
  have h := per_star_mean_and_covariance 6 (Or.inr (Or.inr rfl)) exStarRV.corr
    exZp6 (filteredStars 6 exRaw6)
  ⟨h.1 0 exStarRV 2 rfl, h.2.2.1 0,
   h.2.2.2.2.2.1 exStarRV.corr 0 5 (by decide) (Or.inr (by decide))⟩

lemma oaddF_oaddF (o : Option ℚ) (a b : ℚ) :
    oaddF (oaddF o a) b = oaddF o (a + b) := by
  cases o <;> simp [oaddF] <;> ring

lemma oaddF_zero (o : Option ℚ) : oaddF o 0 = o := by
  cases o <;> simp [oaddF]

lemma sgBlock_off (D : ℕ) (stars : List (RawStar D)) (p q : ℕ × Fin D)
    (h : ¬ p.1 = q.1) : sgBlock D stars p q = some 0 := by
  simp [sgBlock, h]

lemma addQuantityCov_chain6 (stars : List (RawStar 6))
    (cov_plx cov_pms : ℕ → ℕ → ℚ) (i j : ℕ) (d e : Fin 6) :
    addQuantityCov 6 idx_pmd cov_pms (addQuantityCov 6 idx_pma cov_pms
      (addQuantityCov 6 (idx_plx 6) cov_plx (sgBlock 6 stars))) (i, d) (j, e)
    = oaddF (sgBlock 6 stars (i, d) (j, e))
        ((if d.val = idx_plx 6 ∧ e.val = idx_plx 6 then cov_plx i j else 0)
         + (if (6 : ℕ) = 6 ∧ d.val = idx_pma ∧ e.val = idx_pma
             then cov_pms i j else 0)
         + (if (6 : ℕ) = 6 ∧ d.val = idx_pmd ∧ e.val = idx_pmd
             then cov_pms i j else 0)) := by
  have h2 : idx_plx 6 = 2 := rfl
  simp only [addQuantityCov, h2, idx_pma, idx_pmd, eq_self_iff_true, true_and]
  split_ifs <;>
    first
      | omega
      | (cases hsg : sgBlock 6 stars (i, d) (j, e) <;> simp [oaddF])

lemma addQuantityCov_single (D : ℕ) (stars : List (RawStar D)) (q : ℕ)
    (cov : ℕ → ℕ → ℚ) (i j : ℕ) (d e : Fin D) :
    addQuantityCov D q cov (sgBlock D stars) (i, d) (j, e)
    = oaddF (sgBlock D stars (i, d) (j, e))
        (if d.val = q ∧ e.val = q then cov i j else 0) := by
  simp only [addQuantityCov]
  split_ifs
  · rfl
  · rw [oaddF_zero]

/-- C4: unless independent measures are requested, `load_data` adds the
cross-star parallax covariance exactly at the parallax coordinates
(pair (i, idx_plx) for every star i) in every dimension, and for D=6 the
same proper-motion covariance at the pmra coordinates and at the pmdec
coordinates; no entry coupling two different stars at two different
coordinates is touched (it stays 0), and with independent measures the
joint covariance is exactly the block-diagonal one. -/
theorem cross_star_covariance_structure (D : ℕ) (id_name : String)
    (zero_point : Fin D → ℚ) (raw : List (RawStar D))
    (cov_plx cov_pms : ℕ → ℕ → ℚ) (cholOk : (ℕ → ℕ → ℚ) → Bool)
    (hplx : cholOk cov_plx = true) (hpms : D = 6 → cholOk cov_pms = true) :
    (∃ r, load_data D id_name zero_point raw false cov_plx cov_pms cholOk
      = .ok r)
    ∧ (∀ r, load_data D id_name zero_point raw false cov_plx cov_pms cholOk
        = .ok r →
        ∀ (i : ℕ) (d : Fin D) (j : ℕ) (e : Fin D),
          r.sgJoint (i, d) (j, e)
            = oaddF (sgBlock D (filteredStars D raw) (i, d) (j, e))
                ((if d.val = idx_plx D ∧ e.val = idx_plx D
                    then cov_plx i j else 0)
                 + (if D = 6 ∧ d.val = idx_pma ∧ e.val = idx_pma
                     then cov_pms i j else 0)
                 + (if D = 6 ∧ d.val = idx_pmd ∧ e.val = idx_pmd
                     then cov_pms i j else 0)))
    ∧ (∀ r, load_data D id_name zero_point raw false cov_plx cov_pms cholOk
        = .ok r →
        ∀ (i : ℕ) (d : Fin D) (j : ℕ) (e : Fin D), ¬ i = j → ¬ d = e →
          r.sgJoint (i, d) (j, e) = some 0)
    ∧ (∀ r, load_data D id_name zero_point raw true cov_plx cov_pms cholOk
        = .ok r →
        ∀ p q, r.sgJoint p q = sgBlock D (filteredStars D raw) p q) := by
  have hindep : ∀ r, load_data D id_name zero_point raw true cov_plx cov_pms
      cholOk = .ok r →
      ∀ p q, r.sgJoint p q = sgBlock D (filteredStars D raw) p q := by
    intro r hr p q
    simp only [load_data] at hr
    rw [if_pos trivial] at hr
    injection hr with hr
    subst hr
    rfl
  by_cases hD6 : D = 6
  · subst hD6
    have hload : load_data 6 id_name zero_point raw false cov_plx cov_pms cholOk
        = .ok (mkLoadResult 6 id_name zero_point (filteredStars 6 raw)
            (addQuantityCov 6 idx_pmd cov_pms (addQuantityCov 6 idx_pma cov_pms
              (addQuantityCov 6 (idx_plx 6) cov_plx
                (sgBlock 6 (filteredStars 6 raw)))))) := by
      simp only [load_data]
      rw [if_neg (by simp), if_neg (by simp [hplx]), if_pos trivial,
        if_neg (by simp [hpms rfl])]
    have hformula : ∀ r, load_data 6 id_name zero_point raw false cov_plx
        cov_pms cholOk = .ok r →
        ∀ (i : ℕ) (d : Fin 6) (j : ℕ) (e : Fin 6),
          r.sgJoint (i, d) (j, e)
            = oaddF (sgBlock 6 (filteredStars 6 raw) (i, d) (j, e))
                ((if d.val = idx_plx 6 ∧ e.val = idx_plx 6
                    then cov_plx i j else 0)
                 + (if (6 : ℕ) = 6 ∧ d.val = idx_pma ∧ e.val = idx_pma
                     then cov_pms i j else 0)
                 + (if (6 : ℕ) = 6 ∧ d.val = idx_pmd ∧ e.val = idx_pmd
                     then cov_pms i j else 0)) := by
      intro r hr i d j e
      rw [hload] at hr
      injection hr with hr
      subst hr
      exact addQuantityCov_chain6 (filteredStars 6 raw) cov_plx cov_pms i j d e
    refine ⟨⟨_, hload⟩, hformula, ?_, hindep⟩
    intro r hr i d j e hij hde
    have hc1 : ¬ (d.val = idx_plx 6 ∧ e.val = idx_plx 6) :=
      fun hc => hde (Fin.ext (hc.1.trans hc.2.symm))
    have hc2 : ¬ ((6 : ℕ) = 6 ∧ d.val = idx_pma ∧ e.val = idx_pma) :=
      fun hc => hde (Fin.ext (hc.2.1.trans hc.2.2.symm))
    have hc3 : ¬ ((6 : ℕ) = 6 ∧ d.val = idx_pmd ∧ e.val = idx_pmd) :=
      fun hc => hde (Fin.ext (hc.2.1.trans hc.2.2.symm))
    rw [hformula r hr i d j e, sgBlock_off 6 _ _ _ hij, if_neg hc1,
      if_neg hc2, if_neg hc3]
    norm_num [oaddF]
  · have hload : load_data D id_name zero_point raw false cov_plx cov_pms cholOk
        = .ok (mkLoadResult D id_name zero_point (filteredStars D raw)
            (addQuantityCov D (idx_plx D) cov_plx
              (sgBlock D (filteredStars D raw)))) := by
      simp only [load_data]
      rw [if_neg (by simp), if_neg (by simp [hplx]), if_neg hD6]
    have hformula : ∀ r, load_data D id_name zero_point raw false cov_plx
        cov_pms cholOk = .ok r →
        ∀ (i : ℕ) (d : Fin D) (j : ℕ) (e : Fin D),
          r.sgJoint (i, d) (j, e)
            = oaddF (sgBlock D (filteredStars D raw) (i, d) (j, e))
                ((if d.val = idx_plx D ∧ e.val = idx_plx D
                    then cov_plx i j else 0)
                 + (if D = 6 ∧ d.val = idx_pma ∧ e.val = idx_pma
                     then cov_pms i j else 0)
                 + (if D = 6 ∧ d.val = idx_pmd ∧ e.val = idx_pmd
                     then cov_pms i j else 0)) := by
      intro r hr i d j e
      rw [hload] at hr
      injection hr with hr
      subst hr
      show addQuantityCov D (idx_plx D) cov_plx
          (sgBlock D (filteredStars D raw)) (i, d) (j, e) = _
      simp only [hD6, false_and, if_false]
      rw [addQuantityCov_single]
      congr 1
      ring
    refine ⟨⟨_, hload⟩, hformula, ?_, hindep⟩
    intro r hr i d j e hij hde
    rw [hformula r hr i d j e, sgBlock_off D _ _ _ hij]
    simp only [hD6, false_and, if_false]
    rw [if_neg (fun hc => hde (Fin.ext (hc.1.trans hc.2.symm)))]
    norm_num [oaddF]

/-- C4 witness: in the concrete 6D catalog with constant unit cross-star
covariance, the (parallax, parallax) entry between star 0 and itself equals
the block entry plus the parallax covariance. -/
theorem cross_star_covariance_structure_witness :
    exRes6c.sgJoint (0, (2 : Fin 6)) (0, (2 : Fin 6))
      = oaddF (sgBlock 6 (filteredStars 6 exRaw6) (0, (2 : Fin 6)) (0, (2 : Fin 6)))
          ((if (2 : Fin 6).val = idx_plx 6 ∧ (2 : Fin 6).val = idx_plx 6
              then exCovOne 0 0 else 0)
           + (if (6 : ℕ) = 6 ∧ (2 : Fin 6).val = idx_pma ∧ (2 : Fin 6).val = idx_pma
               then exCovOne 0 0 else 0)
           + (if (6 : ℕ) = 6 ∧ (2 : Fin 6).val = idx_pmd ∧ (2 : Fin 6).val = idx_pmd
               then exCovOne 0 0 else 0)) :=
  (cross_star_covariance_structure 6 "source_id" exZp6 exRaw6 exCovOne exCovOne
      exCholTrue rfl (fun _ => rfl)).2.1 exRes6c rfl 0 2 0 2

end Kalkayotl
